import Mathlib

/-
  Verification development for the 2-D sparse-pose-adjustment example
  (src/spa/main.cc): the relative-pose residual evaluators, the analytic
  Jacobian columns, the angle-normalization loop, and the graph-assembly
  logic of Optimize, shallowly embedded over the real numbers.
-/

noncomputable section

/-! ## Angle normalization (NormalizeAngleDifference, lines 17-23)

The C++ code runs two sequential while-loops:
  while (difference > kPi) difference -= 2. * kPi;
  while (difference < -kPi) difference += 2. * kPi;
Each loop is modelled as a well-founded recursion on an integer-ceiling
measure of how far the value is outside the target range. -/

/-- Number of iterations remaining for the subtract-2pi loop. -/
def normSubMeasure (d : ℝ) : ℕ := (⌈(d - Real.pi) / (2 * Real.pi)⌉).toNat

/-- Number of iterations remaining for the add-2pi loop. -/
def normAddMeasure (d : ℝ) : ℕ := (⌈(-Real.pi - d) / (2 * Real.pi)⌉).toNat

theorem normSubMeasure_decreases (d : ℝ) (h : Real.pi < d) :
    normSubMeasure (d - 2 * Real.pi) < normSubMeasure d := by
  unfold normSubMeasure
  have hpi : (0 : ℝ) < 2 * Real.pi := by positivity
  have harg : (d - 2 * Real.pi - Real.pi) / (2 * Real.pi)
      = (d - Real.pi) / (2 * Real.pi) - 1 := by
    field_simp
    ring
  rw [harg]
  have hceil : ⌈(d - Real.pi) / (2 * Real.pi) - 1⌉
      = ⌈(d - Real.pi) / (2 * Real.pi)⌉ - 1 := by
    exact_mod_cast Int.ceil_sub_int ((d - Real.pi) / (2 * Real.pi)) 1
  rw [hceil]
  have hpos : 0 < (d - Real.pi) / (2 * Real.pi) := div_pos (by linarith) hpi
  have hcpos : 0 < ⌈(d - Real.pi) / (2 * Real.pi)⌉ := Int.lt_ceil.mpr (by simpa using hpos)
  omega

theorem normAddMeasure_decreases (d : ℝ) (h : d < -Real.pi) :
    normAddMeasure (d + 2 * Real.pi) < normAddMeasure d := by
  unfold normAddMeasure
  have hpi : (0 : ℝ) < 2 * Real.pi := by positivity
  have harg : (-Real.pi - (d + 2 * Real.pi)) / (2 * Real.pi)
      = (-Real.pi - d) / (2 * Real.pi) - 1 := by
    field_simp
    ring
  rw [harg]
  have hceil : ⌈(-Real.pi - d) / (2 * Real.pi) - 1⌉
      = ⌈(-Real.pi - d) / (2 * Real.pi)⌉ - 1 := by
    exact_mod_cast Int.ceil_sub_int ((-Real.pi - d) / (2 * Real.pi)) 1
  rw [hceil]
  have hpos : 0 < (-Real.pi - d) / (2 * Real.pi) := div_pos (by linarith) hpi
  have hcpos : 0 < ⌈(-Real.pi - d) / (2 * Real.pi)⌉ := Int.lt_ceil.mpr (by simpa using hpos)
  omega

/-- First while-loop of NormalizeAngleDifference:
while (difference > kPi) difference -= 2. * kPi. -/
def normSubLoop (d : ℝ) : ℝ :=
  if h : Real.pi < d then normSubLoop (d - 2 * Real.pi) else d
termination_by normSubMeasure d
decreasing_by exact normSubMeasure_decreases d h

/-- Second while-loop of NormalizeAngleDifference:
while (difference < -kPi) difference += 2. * kPi. -/
def normAddLoop (d : ℝ) : ℝ :=
  if h : d < -Real.pi then normAddLoop (d + 2 * Real.pi) else d
termination_by normAddMeasure d
decreasing_by exact normAddMeasure_decreases d h

/-- NormalizeAngleDifference (src/spa/main.cc lines 17-23): the two loops run
in sequence on the input difference. -/
def NormalizeAngleDifference (difference : ℝ) : ℝ :=
  normAddLoop (normSubLoop difference)

theorem normSubLoop_eq_of_le (d : ℝ) (h : d ≤ Real.pi) : normSubLoop d = d := by
  rw [normSubLoop]
  exact dif_neg (not_lt.mpr h)

theorem normSubLoop_eq_of_gt (d : ℝ) (h : Real.pi < d) :
    normSubLoop d = normSubLoop (d - 2 * Real.pi) := by
  conv_lhs => rw [normSubLoop]
  rw [dif_pos h]

theorem normAddLoop_eq_of_ge (d : ℝ) (h : -Real.pi ≤ d) : normAddLoop d = d := by
  rw [normAddLoop]
  exact dif_neg (not_lt.mpr h)

theorem normAddLoop_eq_of_lt (d : ℝ) (h : d < -Real.pi) :
    normAddLoop d = normAddLoop (d + 2 * Real.pi) := by
  conv_lhs => rw [normAddLoop]
  rw [dif_pos h]

/-- Fuel-indexed version of the subtract-2pi loop (finitely many iterations). -/
def normSubIter : ℕ → ℝ → ℝ
  | 0, d => d
  | n + 1, d => if Real.pi < d then normSubIter n (d - 2 * Real.pi) else d

/-- Fuel-indexed version of the add-2pi loop (finitely many iterations). -/
def normAddIter : ℕ → ℝ → ℝ
  | 0, d => d
  | n + 1, d => if d < -Real.pi then normAddIter n (d + 2 * Real.pi) else d

theorem normSubLoop_spec (d : ℝ) :
    normSubLoop d ≤ Real.pi
    ∧ (∃ m : ℤ, normSubLoop d = d - 2 * Real.pi * m)
    ∧ ∃ n : ℕ, normSubIter n d = normSubLoop d := by
  generalize hN : normSubMeasure d = N
  induction N using Nat.strong_induction_on generalizing d with
  | _ N ih =>
    by_cases h : Real.pi < d
    · have hdec := normSubMeasure_decreases d h
      rw [hN] at hdec
      obtain ⟨h1, ⟨m, h2⟩, ⟨n, h3⟩⟩ := ih _ hdec (d - 2 * Real.pi) rfl
      rw [normSubLoop_eq_of_gt d h]
      refine ⟨h1, ⟨m + 1, ?_⟩, ⟨n + 1, ?_⟩⟩
      · rw [h2]
        push_cast
        ring
      · show (if Real.pi < d then normSubIter n (d - 2 * Real.pi) else d) = _
        rw [if_pos h]
        exact h3
    · push_neg at h
      rw [normSubLoop_eq_of_le d h]
      exact ⟨h, ⟨0, by push_cast; ring⟩, ⟨0, rfl⟩⟩

theorem normAddLoop_spec (d : ℝ) (hd : d ≤ Real.pi) :
    (-Real.pi ≤ normAddLoop d ∧ normAddLoop d ≤ Real.pi)
    ∧ (∃ m : ℤ, normAddLoop d = d + 2 * Real.pi * m)
    ∧ ∃ n : ℕ, normAddIter n d = normAddLoop d := by
  generalize hN : normAddMeasure d = N
  induction N using Nat.strong_induction_on generalizing d with
  | _ N ih =>
    by_cases h : d < -Real.pi
    · have hdec := normAddMeasure_decreases d h
      rw [hN] at hdec
      have hpi : (0 : ℝ) < Real.pi := Real.pi_pos
      have hd2 : d + 2 * Real.pi ≤ Real.pi := by linarith
      obtain ⟨h1, ⟨m, h2⟩, ⟨n, h3⟩⟩ := ih _ hdec (d + 2 * Real.pi) hd2 rfl
      rw [normAddLoop_eq_of_lt d h]
      refine ⟨h1, ⟨m + 1, ?_⟩, ⟨n + 1, ?_⟩⟩
      · rw [h2]
        push_cast
        ring
      · show (if d < -Real.pi then normAddIter n (d + 2 * Real.pi) else d) = _
        rw [if_pos h]
        exact h3
    · push_neg at h
      rw [normAddLoop_eq_of_ge d h]
      exact ⟨⟨h, hd⟩, ⟨0, by push_cast; ring⟩, ⟨0, rfl⟩⟩

theorem normalize_mem_Icc (a : ℝ) :
    NormalizeAngleDifference a ∈ Set.Icc (-Real.pi) Real.pi := by
  obtain ⟨h1, _, _⟩ := normSubLoop_spec a
  obtain ⟨⟨hlo, hhi⟩, _, _⟩ := normAddLoop_spec (normSubLoop a) h1
  exact ⟨hlo, hhi⟩

theorem normalize_congruence (a : ℝ) :
    ∃ m : ℤ, NormalizeAngleDifference a = a - 2 * Real.pi * m := by
  obtain ⟨h1, ⟨m₁, hm₁⟩, _⟩ := normSubLoop_spec a
  obtain ⟨_, ⟨m₂, hm₂⟩, _⟩ := normAddLoop_spec (normSubLoop a) h1
  refine ⟨m₁ - m₂, ?_⟩
  unfold NormalizeAngleDifference
  rw [hm₂, hm₁]
  push_cast
  ring

theorem norm_unique (r₁ r₂ : ℝ) (h₁ : r₁ ∈ Set.Ioo (-Real.pi) Real.pi)
    (h₂ : r₂ ∈ Set.Icc (-Real.pi) Real.pi) (m : ℤ)
    (hm : r₁ - r₂ = 2 * Real.pi * m) : r₁ = r₂ := by
  obtain ⟨ha, hb⟩ := h₁
  obtain ⟨hc, hd⟩ := h₂
  have hpi : (0 : ℝ) < Real.pi := Real.pi_pos
  have hlow : 2 * Real.pi * (-1 : ℝ) < 2 * Real.pi * (m : ℝ) := by
    rw [← hm]; linarith
  have hhigh : 2 * Real.pi * (m : ℝ) < 2 * Real.pi * (1 : ℝ) := by
    rw [← hm]; linarith
  have h2pi : (0 : ℝ) < 2 * Real.pi := by positivity
  have hm1 : (-1 : ℝ) < (m : ℝ) := lt_of_mul_lt_mul_left hlow (le_of_lt h2pi)
  have hm2 : (m : ℝ) < 1 := lt_of_mul_lt_mul_left hhigh (le_of_lt h2pi)
  have hm1z : (-1 : ℤ) < m := by exact_mod_cast hm1
  have hm2z : m < (1 : ℤ) := by exact_mod_cast hm2
  have hmz : m = 0 := by omega
  rw [hmz] at hm
  push_cast at hm
  linarith

theorem normalize_mem_Ioo_of_not_odd (a : ℝ)
    (h : ∀ m : ℤ, a ≠ (2 * (m : ℝ) + 1) * Real.pi) :
    NormalizeAngleDifference a ∈ Set.Ioo (-Real.pi) Real.pi := by
  obtain ⟨hlo, hhi⟩ := normalize_mem_Icc a
  obtain ⟨m, hm⟩ := normalize_congruence a
  constructor
  · rcases lt_or_eq_of_le hlo with h1 | h1
    · exact h1
    · exfalso
      apply h (m - 1)
      have : a = NormalizeAngleDifference a + 2 * Real.pi * m := by linarith [hm.symm.le, hm]
      rw [← h1] at this
      rw [this]
      push_cast
      ring
  · rcases lt_or_eq_of_le hhi with h1 | h1
    · exact h1
    · exfalso
      apply h m
      have : a = NormalizeAngleDifference a + 2 * Real.pi * m := by linarith [hm]
      rw [h1] at this
      rw [this]
      ring

/-! ## Data model (src/spa/main.cc lines 6-15)

Pose holds a 2-D translation and a rotation angle; Constraint holds the two
pose ids and the observed relative pose.  The 3x3 double matrices of Eigen
are modelled as functions Fin 3 -> Fin 3 -> Real. -/

abbrev Mat3 := Fin 3 → Fin 3 → ℝ

/-- Eigen 3x3 matrix times 3-vector, row i = sum of m i j * v j. -/
def mat3mulVec (m : Mat3) (v : Fin 3 → ℝ) : Fin 3 → ℝ :=
  fun i => m i 0 * v 0 + m i 1 * v 1 + m i 2 * v 2

/-- Pose (lines 6-9): translation (x, y) and rotation angle. -/
structure Pose where
  translation : ℝ × ℝ
  rotation : ℝ

/-- Constraint (lines 11-15): source id, target id, observed relative pose.
The struct carries no information matrix. -/
structure Constraint where
  source : ℤ
  target : ℤ
  relative_pose : Pose

/-! ## SpaCostFunctor::operator() (lines 33-52), instantiated at T = Real -/

/-- Residual of the autodiff-backed functor SpaCostFunctor (lines 33-52):
stored observation (x_, y_, theta_) and sqrt_information_, applied to the six
scalar parameters. -/
def SpaCostFunctor.call (x_ y_ theta_ : ℝ) (sqrt_information_ : Mat3)
    (source_x source_y source_theta target_x target_y target_theta : ℝ) :
    Fin 3 → ℝ :=
  let source_cos := Real.cos source_theta
  let source_sin := Real.sin source_theta
  let delta_x := target_x - source_x
  let delta_y := target_y - source_y
  mat3mulVec sqrt_information_
    ![x_ - (source_cos * delta_x + source_sin * delta_y),
      y_ - (source_cos * delta_y - source_sin * delta_x),
      NormalizeAngleDifference (theta_ - (target_theta - source_theta))]

/-! ## SpaCostFunctorAnalytic::Evaluate (lines 72-162)

parameters[0..5][0] are source_x, source_y, source_theta, target_x, target_y,
target_theta.  The residual part is lines 74-84; each jacobians[i] column is
computed only when its pointer is non-null, so each column is modelled as a
function of the inputs it reads, and target_x / target_y additionally take
the flag saying whether the corresponding source column pointer was non-null
(lines 128-155 branch on it). -/

/-- Residual part of SpaCostFunctorAnalytic::Evaluate (lines 74-84). -/
def SpaCostFunctorAnalytic.EvaluateResidual (x_ y_ theta_ : ℝ)
    (sqrt_information_ : Mat3)
    (source_x source_y source_theta target_x target_y target_theta : ℝ) :
    Fin 3 → ℝ :=
  let cos_source_theta := Real.cos source_theta
  let sin_source_theta := Real.sin source_theta
  let dx := target_x - source_x
  let dy := target_y - source_y
  mat3mulVec sqrt_information_
    ![x_ - (cos_source_theta * dx + sin_source_theta * dy),
      y_ - (cos_source_theta * dy - sin_source_theta * dx),
      NormalizeAngleDifference (theta_ - (target_theta - source_theta))]

/-- Sub-expression unweighted_jacobians_02 (lines 96-97). -/
def SpaCostFunctorAnalytic.unweighted_jacobians_02 (source_theta dx dy : ℝ) : ℝ :=
  Real.sin source_theta * dx - Real.cos source_theta * dy

/-- Sub-expression unweighted_jacobians_12 (lines 98-99). -/
def SpaCostFunctorAnalytic.unweighted_jacobians_12 (source_theta dx dy : ℝ) : ℝ :=
  Real.cos source_theta * dx + Real.sin source_theta * dy

/-- jacobian_source_x column (lines 101-108). -/
def SpaCostFunctorAnalytic.jacobian_source_x (S : Mat3) (source_theta : ℝ) :
    Fin 3 → ℝ :=
  ![S 0 0 * Real.cos source_theta - S 0 1 * Real.sin source_theta,
    S 1 0 * Real.cos source_theta - S 1 1 * Real.sin source_theta,
    S 2 0 * Real.cos source_theta - S 2 1 * Real.sin source_theta]

/-- jacobian_source_y column (lines 109-116).  Row 2 reads S(2,2) where the
other rows read S(i,1), exactly as the C++ source does on line 115. -/
def SpaCostFunctorAnalytic.jacobian_source_y (S : Mat3) (source_theta : ℝ) :
    Fin 3 → ℝ :=
  ![S 0 0 * Real.sin source_theta + S 0 1 * Real.cos source_theta,
    S 1 0 * Real.sin source_theta + S 1 1 * Real.cos source_theta,
    S 2 0 * Real.sin source_theta + S 2 2 * Real.cos source_theta]

/-- jacobian_source_theta column (lines 117-127). -/
def SpaCostFunctorAnalytic.jacobian_source_theta (S : Mat3)
    (source_theta dx dy : ℝ) : Fin 3 → ℝ :=
  ![S 0 0 * SpaCostFunctorAnalytic.unweighted_jacobians_02 source_theta dx dy
      + S 0 1 * SpaCostFunctorAnalytic.unweighted_jacobians_12 source_theta dx dy,
    S 1 0 * SpaCostFunctorAnalytic.unweighted_jacobians_02 source_theta dx dy
      + S 1 1 * SpaCostFunctorAnalytic.unweighted_jacobians_12 source_theta dx dy,
    S 2 0 * SpaCostFunctorAnalytic.unweighted_jacobians_02 source_theta dx dy
      + S 2 1 * SpaCostFunctorAnalytic.unweighted_jacobians_12 source_theta dx dy]

/-- jacobian_target_x column (lines 128-141): negates jacobian_source_x when
that pointer was non-null, otherwise recomputes the rows directly. -/
def SpaCostFunctorAnalytic.jacobian_target_x (S : Mat3) (source_theta : ℝ)
    (source_x_requested : Bool) : Fin 3 → ℝ :=
  if source_x_requested then
    ![-(SpaCostFunctorAnalytic.jacobian_source_x S source_theta 0),
      -(SpaCostFunctorAnalytic.jacobian_source_x S source_theta 1),
      -(SpaCostFunctorAnalytic.jacobian_source_x S source_theta 2)]
  else
    ![S 0 1 * Real.sin source_theta - S 0 0 * Real.cos source_theta,
      S 1 1 * Real.sin source_theta - S 1 0 * Real.cos source_theta,
      S 2 1 * Real.sin source_theta - S 2 0 * Real.cos source_theta]

/-- jacobian_target_y column (lines 142-155): negates jacobian_source_y when
that pointer was non-null, otherwise recomputes the rows directly (the direct
rows all read S(i,1)). -/
def SpaCostFunctorAnalytic.jacobian_target_y (S : Mat3) (source_theta : ℝ)
    (source_y_requested : Bool) : Fin 3 → ℝ :=
  if source_y_requested then
    ![-(SpaCostFunctorAnalytic.jacobian_source_y S source_theta 0),
      -(SpaCostFunctorAnalytic.jacobian_source_y S source_theta 1),
      -(SpaCostFunctorAnalytic.jacobian_source_y S source_theta 2)]
  else
    ![-(S 0 0) * Real.sin source_theta - S 0 1 * Real.cos source_theta,
      -(S 1 0) * Real.sin source_theta - S 1 1 * Real.cos source_theta,
      -(S 2 0) * Real.sin source_theta - S 2 1 * Real.cos source_theta]

/-- jacobian_target_theta column (lines 156-160). -/
def SpaCostFunctorAnalytic.jacobian_target_theta (S : Mat3) : Fin 3 → ℝ :=
  ![-(S 0 2), -(S 1 2), -(S 2 2)]

/-- Which jacobian column pointers the caller passed as non-null. -/
structure JacobianRequest where
  source_x : Bool
  source_y : Bool
  source_theta : Bool
  target_x : Bool
  target_y : Bool
  target_theta : Bool

/-- The full jacobian output of SpaCostFunctorAnalytic::Evaluate (lines
86-161): column j is computed exactly when its pointer is non-null, and the
target_x / target_y computations observe whether the matching source pointer
was non-null. -/
def SpaCostFunctorAnalytic.jacobians (S : Mat3) (source_theta dx dy : ℝ)
    (req : JacobianRequest) : Fin 6 → Option (Fin 3 → ℝ) :=
  fun j =>
    match j with
    | 0 => if req.source_x then some (SpaCostFunctorAnalytic.jacobian_source_x S source_theta) else none
    | 1 => if req.source_y then some (SpaCostFunctorAnalytic.jacobian_source_y S source_theta) else none
    | 2 => if req.source_theta then some (SpaCostFunctorAnalytic.jacobian_source_theta S source_theta dx dy) else none
    | 3 => if req.target_x then some (SpaCostFunctorAnalytic.jacobian_target_x S source_theta req.source_x) else none
    | 4 => if req.target_y then some (SpaCostFunctorAnalytic.jacobian_target_y S source_theta req.source_y) else none
    | 5 => if req.target_theta then some (SpaCostFunctorAnalytic.jacobian_target_theta S) else none

/-- Eigen::Matrix3d::Identity(). -/
def Matrix3dIdentity : Mat3 := fun i j => if i = j then 1 else 0

/-! ## Optimize: graph assembly (lines 171-207)

Optimize builds a problem-level identity information matrix and its
upper-triangular Cholesky factor once (lines 173-174), then loops over the
constraints adding one residual block per constraint, each whitened by that
single factor and wrapped in a Huber loss of scale 1.0.  poses is a
std::map<int, Pose>, so poses[id] default-inserts a Pose when the id is
absent; the default-constructed Pose value is unspecified, so the model
threads it as an explicit parameter.  Finally the three scalar parameters of
poses[0] are marked constant (lines 198-201) and the external solver is
invoked.  The external ceres solver is modelled by its contract: it may
rewrite every scalar parameter that is registered in some residual block and
not marked constant, and touches nothing else. -/

/-- Models Eigen llt().matrixU() on a 3x3 matrix: the upper-triangular
Cholesky factor, by the standard closed-form entries. -/
def lltMatrixU (m : Mat3) : Mat3 :=
  let u00 := Real.sqrt (m 0 0)
  let u01 := m 0 1 / u00
  let u02 := m 0 2 / u00
  let u11 := Real.sqrt (m 1 1 - u01 ^ 2)
  let u12 := (m 1 2 - u01 * u02) / u11
  let u22 := Real.sqrt (m 2 2 - u02 ^ 2 - u12 ^ 2)
  ![![u00, u01, u02], ![0, u11, u12], ![0, 0, u22]]

/-- information_matrix (line 173): the identity. -/
def information_matrix : Mat3 := Matrix3dIdentity

/-- sqrt_information (line 174): computed once per Optimize call, before the
constraint loop. -/
def sqrt_information : Mat3 := lltMatrixU information_matrix

/-- How many times the body of Optimize evaluates llt().matrixU(): the single
call site on line 174 sits before the constraint loop, so it runs exactly
once per Optimize call, whatever the constraint list is. -/
def sqrtInformationComputationCount : List Constraint → ℕ := fun _ => 1

/-- One residual block registered by problem.AddResidualBlock (lines
180-196): the cost functor data (observed pose and whitening matrix, with the
flag saying which functor), the Huber loss scale, and the two pose ids whose
six scalars it binds by reference. -/
structure ResidualBlock where
  observed : Pose
  sqrt_information : Mat3
  use_analytic_cost : Bool
  huber_delta : ℝ
  source : ℤ
  target : ℤ

/-- std::map operator[]: return the mapped pose, default-inserting dflt when
the key is absent. -/
def mapIndex (poses : List (ℤ × Pose)) (key : ℤ) (dflt : Pose) :
    Pose × List (ℤ × Pose) :=
  match poses.lookup key with
  | some p => (p, poses)
  | none => (dflt, poses ++ [(key, dflt)])

/-- The constraint loop of Optimize (lines 177-197): for each constraint,
index the map at source and target (default-inserting missing ids) and add a
residual block whitened by the problem-level sqrt_information with a Huber
loss of scale 1.0. -/
def assembleBlocks (dflt : Pose) (use_analytic_cost : Bool) :
    List Constraint → List (ℤ × Pose) → List ResidualBlock × List (ℤ × Pose)
  | [], poses => ([], poses)
  | constraint :: rest, poses =>
    let s := mapIndex poses constraint.source dflt
    let t := mapIndex s.2 constraint.target dflt
    let block : ResidualBlock :=
      ⟨constraint.relative_pose, sqrt_information, use_analytic_cost, 1.0,
        constraint.source, constraint.target⟩
    let result := assembleBlocks dflt use_analytic_cost rest t.2
    (block :: result.1, result.2)

/-- The six scalar parameters a residual block binds: source x, y, theta then
target x, y, theta (component 0 = translation.x, 1 = translation.y,
2 = rotation angle). -/
def residualBlockParameters (b : ResidualBlock) : List (ℤ × Fin 3) :=
  [(b.source, 0), (b.source, 1), (b.source, 2),
   (b.target, 0), (b.target, 1), (b.target, 2)]

/-- The parameters marked constant by SetParameterBlockConstant (lines
198-201): the three scalars of the reference pose, id 0. -/
def constantParameterBlocks : List (ℤ × Fin 3) := [(0, 0), (0, 1), (0, 2)]

/-- The solver contract: it may write scalar (key, c) exactly when that
scalar is bound by some residual block and is not marked constant. -/
def solverWrites (blocks : List ResidualBlock) (key : ℤ) (c : Fin 3) : Prop :=
  (∃ b ∈ blocks, (key, c) ∈ residualBlockParameters b)
  ∧ (key, c) ∉ constantParameterBlocks

instance (blocks : List ResidualBlock) (key : ℤ) (c : Fin 3) :
    Decidable (solverWrites blocks key c) := by
  unfold solverWrites
  infer_instance

/-- The pose stored at key after ceres::Solve returns: each of its three
scalars is replaced by the solver-chosen value sol when the contract lets the
solver write it, and kept otherwise. -/
def solvedPose (sol : ℤ → Fin 3 → ℝ) (blocks : List ResidualBlock)
    (key : ℤ) (p : Pose) : Pose :=
  ⟨(if solverWrites blocks key 0 then sol key 0 else p.translation.1,
    if solverWrites blocks key 1 then sol key 1 else p.translation.2),
    if solverWrites blocks key 2 then sol key 2 else p.rotation⟩

/-- ceres::Solve (line 207) under the solver contract: every pose in the map
is updated in place on exactly its writable scalars. -/
def ceresSolve (sol : ℤ → Fin 3 → ℝ) (blocks : List ResidualBlock)
    (poses : List (ℤ × Pose)) : List (ℤ × Pose) :=
  poses.map fun kp => (kp.1, solvedPose sol blocks kp.1 kp.2)

/-- Optimize (lines 171-232), up to the pose state it leaves behind: assemble
the blocks over the constraint list, index the map at the reference id 0
(line 198, default-inserting it when absent), mark the reference scalars
constant, and hand the problem to the external solver. -/
def Optimize (sol : ℤ → Fin 3 → ℝ) (dflt : Pose)
    (constraints : List Constraint) (poses : List (ℤ × Pose))
    (use_analytic_cost : Bool) : List (ℤ × Pose) :=
  let ab := assembleBlocks dflt use_analytic_cost constraints poses
  let anchored := mapIndex ab.2 0 dflt
  ceresSolve sol ab.1 anchored.2

/-- The constraint list built by run() (lines 235-253). -/
def run_constraints : List Constraint :=
  [⟨0, 1, ⟨(4.0, 0.0), Real.pi / 2⟩⟩,
   ⟨1, 2, ⟨(4.0, 4.0), Real.pi⟩⟩,
   ⟨2, 0, ⟨(4.0, 0.0), Real.pi / 2⟩⟩]

/-- A concrete pose value used for counterexample inputs (also standing in
for the unspecified default-constructed Pose). -/
def posezero : Pose := ⟨(0, 0), 0⟩

/-! ## Helper lemmas about the association-list pose map -/

theorem lookup_append_some {β : Type} (l l₂ : List (ℤ × β)) (a : ℤ) (v : β)
    (h : l.lookup a = some v) : (l ++ l₂).lookup a = some v := by
  induction l with
  | nil => simp [List.lookup] at h
  | cons hd tl ih =>
    rw [List.cons_append]
    cases hhd : (a == hd.1) with
    | true =>
      simp only [List.lookup, hhd] at h ⊢
      exact h
    | false =>
      simp only [List.lookup, hhd] at h ⊢
      exact ih h

theorem lookup_mem_keys {β : Type} (l : List (ℤ × β)) (a : ℤ) (v : β)
    (h : l.lookup a = some v) : a ∈ l.map Prod.fst := by
  induction l with
  | nil => simp [List.lookup] at h
  | cons hd tl ih =>
    cases hhd : (a == hd.1) with
    | true =>
      have heq : a = hd.1 := by simpa using hhd
      simp [heq]
    | false =>
      simp only [List.lookup, hhd] at h
      simp [ih h]

theorem mapIndex_lookup_preserved (poses : List (ℤ × Pose)) (j k : ℤ)
    (dflt p : Pose) (h : poses.lookup k = some p) :
    ((mapIndex poses j dflt).2).lookup k = some p := by
  unfold mapIndex
  cases hj : poses.lookup j with
  | some q => exact h
  | none => exact lookup_append_some poses [(j, dflt)] k p h

theorem assembleBlocks_lookup_preserved (dflt : Pose) (ua : Bool) :
    ∀ (cs : List Constraint) (poses : List (ℤ × Pose)) (k : ℤ) (p : Pose),
      poses.lookup k = some p →
      ((assembleBlocks dflt ua cs poses).2).lookup k = some p := by
  intro cs
  induction cs with
  | nil => intro poses k p h; exact h
  | cons c rest ih =>
    intro poses k p h
    have h1 := mapIndex_lookup_preserved poses c.source k dflt p h
    have h2 := mapIndex_lookup_preserved (mapIndex poses c.source dflt).2
      c.target k dflt p h1
    exact ih _ k p h2

theorem ceresSolve_lookup (sol : ℤ → Fin 3 → ℝ) (blocks : List ResidualBlock)
    (l : List (ℤ × Pose)) (k : ℤ) :
    (ceresSolve sol blocks l).lookup k
      = (l.lookup k).map (solvedPose sol blocks k) := by
  induction l with
  | nil => rfl
  | cons hd tl ih =>
    cases hhd : (k == hd.1) with
    | true =>
      have heq : k = hd.1 := by simpa using hhd
      simp only [ceresSolve, List.map_cons, List.lookup, hhd]
      rw [heq]
      rfl
    | false =>
      simp only [ceresSolve, List.map_cons, List.lookup, hhd]
      exact ih

theorem mapIndex_keys (l : List (ℤ × Pose)) (j : ℤ) (dflt : Pose) (k : ℤ) :
    k ∈ ((mapIndex l j dflt).2).map Prod.fst ↔
      (k ∈ l.map Prod.fst ∨ k = j) := by
  unfold mapIndex
  cases hj : l.lookup j with
  | some q =>
    simp only []
    constructor
    · intro h; exact Or.inl h
    · intro h
      rcases h with h | h
      · exact h
      · rw [h]; exact lookup_mem_keys l j q hj
  | none => simp

theorem ceresSolve_keys (sol : ℤ → Fin 3 → ℝ) (blocks : List ResidualBlock)
    (l : List (ℤ × Pose)) :
    (ceresSolve sol blocks l).map Prod.fst = l.map Prod.fst := by
  unfold ceresSolve
  rw [List.map_map]
  rfl

theorem assembleBlocks_keys (dflt : Pose) (ua : Bool) :
    ∀ (cs : List Constraint) (poses : List (ℤ × Pose)) (k : ℤ),
      k ∈ ((assembleBlocks dflt ua cs poses).2).map Prod.fst ↔
        (k ∈ poses.map Prod.fst ∨ ∃ c ∈ cs, k = c.source ∨ k = c.target) := by
  intro cs
  induction cs with
  | nil => intro poses k; simp [assembleBlocks]
  | cons c rest ih =>
    intro poses k
    show k ∈ ((assembleBlocks dflt ua rest
        (mapIndex (mapIndex poses c.source dflt).2 c.target dflt).2).2).map Prod.fst ↔ _
    rw [ih]
    rw [mapIndex_keys, mapIndex_keys]
    constructor
    · rintro (((h | h) | h) | ⟨c', hc', h⟩)
      · exact Or.inl h
      · exact Or.inr ⟨c, List.mem_cons_self c rest, Or.inl h⟩
      · exact Or.inr ⟨c, List.mem_cons_self c rest, Or.inr h⟩
      · exact Or.inr ⟨c', List.mem_cons_of_mem c hc', h⟩
    · rintro (h | ⟨c', hc', h⟩)
      · exact Or.inl (Or.inl (Or.inl h))
      · rcases List.mem_cons.mp hc' with rfl | hc'
        · rcases h with h | h
          · exact Or.inl (Or.inl (Or.inr h))
          · exact Or.inl (Or.inr h)
        · exact Or.inr ⟨c', hc', h⟩

theorem assembleBlocks_sqrt_information (dflt : Pose) (ua : Bool) :
    ∀ (cs : List Constraint) (poses : List (ℤ × Pose)),
      ((assembleBlocks dflt ua cs poses).1).map ResidualBlock.sqrt_information
        = List.replicate cs.length sqrt_information := by
  intro cs
  induction cs with
  | nil => intro poses; rfl
  | cons c rest ih =>
    intro poses
    show ResidualBlock.sqrt_information
        ⟨c.relative_pose, sqrt_information, ua, 1.0, c.source, c.target⟩
        :: ((assembleBlocks dflt ua rest _).1).map ResidualBlock.sqrt_information
      = List.replicate (rest.length + 1) sqrt_information
    rw [ih]
    rfl

theorem lltMatrixU_identity : lltMatrixU information_matrix = information_matrix := by
  funext i j
  fin_cases i <;> fin_cases j <;>
    norm_num [lltMatrixU, information_matrix, Matrix3dIdentity, Real.sqrt_one,
      Matrix.vecHead, Matrix.vecTail, Fin.ext_iff]

theorem solvedPose_anchor (sol : ℤ → Fin 3 → ℝ) (blocks : List ResidualBlock)
    (p : Pose) : solvedPose sol blocks 0 p = p := by
  have h : ∀ c : Fin 3, ¬ solverWrites blocks 0 c := by
    intro c hw
    exact hw.2 (by fin_cases c <;> simp [constantParameterBlocks])
  simp [solvedPose, h 0, h 1, h 2]

/-! ## Claim theorems -/

/-- C3: for every observed relative pose, every sqrt-information matrix and
all six pose scalars, both residual evaluators compute dx = x_t - x_s,
dy = y_t - y_s and return the whitened 3-vector
sqrt_information * [xbar - (cos th_s * dx + sin th_s * dy),
ybar - (cos th_s * dy - sin th_s * dx),
normalize_angle(thetabar - (th_t - th_s))]. -/
theorem c3_residual_formula (xbar ybar thetabar : ℝ) (S : Mat3)
    (xs ys ts xt yt tt : ℝ) :
    SpaCostFunctor.call xbar ybar thetabar S xs ys ts xt yt tt
      = mat3mulVec S
          ![xbar - (Real.cos ts * (xt - xs) + Real.sin ts * (yt - ys)),
            ybar - (Real.cos ts * (yt - ys) - Real.sin ts * (xt - xs)),
            NormalizeAngleDifference (thetabar - (tt - ts))]
    ∧ SpaCostFunctorAnalytic.EvaluateResidual xbar ybar thetabar S xs ys ts xt yt tt
      = mat3mulVec S
          ![xbar - (Real.cos ts * (xt - xs) + Real.sin ts * (yt - ys)),
            ybar - (Real.cos ts * (yt - ys) - Real.sin ts * (xt - xs)),
            NormalizeAngleDifference (thetabar - (tt - ts))] :=
  ⟨rfl, rfl⟩

/-- C10: the autodiff-backed functor and the analytic cost function compute
extensionally equal residual 3-vectors on every input. -/
theorem c10_residual_equivalence (xbar ybar thetabar : ℝ) (S : Mat3)
    (xs ys ts xt yt tt : ℝ) :
    SpaCostFunctor.call xbar ybar thetabar S xs ys ts xt yt tt
      = SpaCostFunctorAnalytic.EvaluateResidual xbar ybar thetabar S xs ys ts xt yt tt :=
  rfl

/-- C1 fails on the code: at theta_s = 0 and S = identity (the program's own
sqrt-information matrix), row 2 of the computed d r / d y_s column is 1, but
the claimed formula S(2,0)*sin + S(2,1)*cos gives 0 - line 115 reads S(2,2)
instead of S(2,1). -/
theorem c1_code_bug :
    SpaCostFunctorAnalytic.jacobian_source_y Matrix3dIdentity 0 2
      ≠ Matrix3dIdentity 2 0 * Real.sin 0 + Matrix3dIdentity 2 1 * Real.cos 0 := by
  norm_num [SpaCostFunctorAnalytic.jacobian_source_y, Matrix3dIdentity,
    Matrix.cons_val_two, Matrix.vecHead, Matrix.vecTail, Fin.ext_iff]

/-- C2 fails on the code: with S = identity and theta_s = 0, the d r / d y_t
column computed in a run that also requests d r / d y_s differs (row 2 is -1)
from the same column computed in a run that requests only d r / d y_t (row 2
is 0), because the negated source column carries the line-115 slip. -/
theorem c2_code_bug :
    SpaCostFunctorAnalytic.jacobians Matrix3dIdentity 0 0 0
        ⟨false, true, false, false, true, false⟩ 4
      ≠ SpaCostFunctorAnalytic.jacobians Matrix3dIdentity 0 0 0
        ⟨false, false, false, false, true, false⟩ 4 := by
  have hL : SpaCostFunctorAnalytic.jacobians Matrix3dIdentity 0 0 0
      ⟨false, true, false, false, true, false⟩ 4
      = some (SpaCostFunctorAnalytic.jacobian_target_y Matrix3dIdentity 0 true) := rfl
  have hR : SpaCostFunctorAnalytic.jacobians Matrix3dIdentity 0 0 0
      ⟨false, false, false, false, true, false⟩ 4
      = some (SpaCostFunctorAnalytic.jacobian_target_y Matrix3dIdentity 0 false) := rfl
  rw [hL, hR]
  intro hcontra
  have h2 := congrFun (Option.some.inj hcontra) 2
  norm_num [SpaCostFunctorAnalytic.jacobian_target_y,
    SpaCostFunctorAnalytic.jacobian_source_y, Matrix3dIdentity,
    Matrix.cons_val_two, Matrix.vecHead, Matrix.vecTail, Fin.ext_iff] at h2

/-- C4 fails on the code: with S = identity and theta_s = 0, when only the
target-y column pointer is non-null its row 2 is 0, while the negation of the
code's d r / d y_s column has row 2 equal to -1, so the exact negation
symmetry does not hold for every request pattern (line 115 again). -/
theorem c4_code_bug :
    SpaCostFunctorAnalytic.jacobian_target_y Matrix3dIdentity 0 false 2
      ≠ -(SpaCostFunctorAnalytic.jacobian_source_y Matrix3dIdentity 0 2) := by
  norm_num [SpaCostFunctorAnalytic.jacobian_target_y,
    SpaCostFunctorAnalytic.jacobian_source_y, Matrix3dIdentity,
    Matrix.cons_val_two, Matrix.vecHead, Matrix.vecTail, Fin.ext_iff]

theorem normalize_neg_pi : NormalizeAngleDifference (-Real.pi) = -Real.pi := by
  have hpi : (0 : ℝ) < Real.pi := Real.pi_pos
  unfold NormalizeAngleDifference
  rw [normSubLoop_eq_of_le (-Real.pi) (by linarith)]
  exact normAddLoop_eq_of_ge (-Real.pi) le_rfl

/-- C5 fails as stated: at a = -pi (with k = 1) the loop returns -pi, which
is outside the claimed half-open range (-pi, pi], and shifting by one full
turn lands on +pi instead, breaking the claimed periodicity. -/
theorem c5_counterexample :
    NormalizeAngleDifference (-Real.pi + 2 * Real.pi * ((1 : ℤ) : ℝ))
        ≠ NormalizeAngleDifference (-Real.pi)
    ∧ NormalizeAngleDifference (-Real.pi) ∉ Set.Ioc (-Real.pi) Real.pi := by
  have hpi : (0 : ℝ) < Real.pi := Real.pi_pos
  have e1 : -Real.pi + 2 * Real.pi * ((1 : ℤ) : ℝ) = Real.pi := by push_cast; ring
  have e2 : NormalizeAngleDifference Real.pi = Real.pi := by
    unfold NormalizeAngleDifference
    rw [normSubLoop_eq_of_le Real.pi le_rfl]
    exact normAddLoop_eq_of_ge Real.pi (by linarith)
  constructor
  · rw [e1, e2, normalize_neg_pi]
    intro hcontra
    linarith
  · rw [normalize_neg_pi]
    intro hmem
    exact lt_irrefl _ hmem.1

/-- C5 amended: the loop result lies in the closed interval [-pi, pi] for
every real input, the boundary value -pi is attained (normalize_angle(-pi)
is -pi itself), and normalize_angle(a + 2 pi k) = normalize_angle(a) holds
for every integer k whenever a is not an odd integer multiple of pi. -/
theorem c5_amended (a : ℝ) (k : ℤ)
    (h : ∀ m : ℤ, a ≠ (2 * (m : ℝ) + 1) * Real.pi) :
    NormalizeAngleDifference (a + 2 * Real.pi * (k : ℝ)) = NormalizeAngleDifference a
    ∧ (∀ b : ℝ, NormalizeAngleDifference b ∈ Set.Icc (-Real.pi) Real.pi)
    ∧ NormalizeAngleDifference (-Real.pi) = -Real.pi := by
  refine ⟨?_, fun b => normalize_mem_Icc b, normalize_neg_pi⟩
  have h1 := normalize_mem_Ioo_of_not_odd a h
  have h2 := normalize_mem_Icc (a + 2 * Real.pi * (k : ℝ))
  obtain ⟨m₁, hm₁⟩ := normalize_congruence a
  obtain ⟨m₂, hm₂⟩ := normalize_congruence (a + 2 * Real.pi * (k : ℝ))
  have hdiff : NormalizeAngleDifference a
      - NormalizeAngleDifference (a + 2 * Real.pi * (k : ℝ))
      = 2 * Real.pi * ((m₂ - m₁ - k : ℤ) : ℝ) := by
    rw [hm₁, hm₂]
    push_cast
    ring
  exact (norm_unique _ _ h1 h2 (m₂ - m₁ - k) hdiff).symm

/-- Witness for the amended C5 at the concrete input a = 0, k = 1. -/
theorem c5_amended_witness :
    NormalizeAngleDifference (0 + 2 * Real.pi * ((1 : ℤ) : ℝ)) = NormalizeAngleDifference 0
    ∧ (∀ b : ℝ, NormalizeAngleDifference b ∈ Set.Icc (-Real.pi) Real.pi)
    ∧ NormalizeAngleDifference (-Real.pi) = -Real.pi :=
  c5_amended 0 1 (by
    intro m hm
    have h2 : (2 * (m : ℝ) + 1) ≠ 0 := by
      intro hz
      have hzz : (2 * m + 1 : ℤ) = 0 := by exact_mod_cast hz
      omega
    exact (mul_ne_zero h2 Real.pi_ne_zero) hm.symm)

/-- C9: for every real input, each of the two normalization loops reaches its
stopping condition after finitely many iterations, and the value reached is
the loop's result, which lies in [-pi, pi]. -/
theorem c9_termination (a : ℝ) :
    ∃ n m : ℕ, normSubIter n a ≤ Real.pi
      ∧ normAddIter m (normSubIter n a) = NormalizeAngleDifference a
      ∧ -Real.pi ≤ NormalizeAngleDifference a
      ∧ NormalizeAngleDifference a ≤ Real.pi := by
  obtain ⟨h1, _, ⟨n, h3⟩⟩ := normSubLoop_spec a
  obtain ⟨⟨hlo, hhi⟩, _, ⟨m, h6⟩⟩ := normAddLoop_spec (normSubLoop a) h1
  refine ⟨n, m, ?_, ?_, hlo, hhi⟩
  · rw [h3]
    exact h1
  · rw [h3, h6]
    rfl

/-- C6 fails as stated: the square-root information factor is computed once
per Optimize call (the single llt call site precedes the constraint loop),
not once per constraint - on the program's own three-constraint input the
computation count is 1, not 3. -/
theorem c6_counterexample :
    sqrtInformationComputationCount run_constraints ≠ run_constraints.length := by
  norm_num [sqrtInformationComputationCount, run_constraints]

/-- C6 amended: every residual block of the assembled problem is whitened by
the one problem-level factor lltMatrixU(identity) (which equals the
identity), computed once per Optimize call and shared by all constraints. -/
theorem c6_amended (dflt : Pose) (ua : Bool) (cs : List Constraint)
    (poses : List (ℤ × Pose)) :
    ((assembleBlocks dflt ua cs poses).1).map ResidualBlock.sqrt_information
        = List.replicate cs.length sqrt_information
    ∧ sqrt_information = information_matrix
    ∧ sqrtInformationComputationCount cs = 1 :=
  ⟨assembleBlocks_sqrt_information dflt ua cs poses, lltMatrixU_identity, rfl⟩

/-- C7 fails as stated: assembling constraints {source 0, target 5} over a
pose map with keys {0, 1, 2} does not fail - std::map operator[]
default-inserts id 5, mutating the map, and assembly proceeds. -/
theorem c7_counterexample :
    (5 : ℤ) ∈ ((assembleBlocks posezero false
        [⟨0, 5, posezero⟩]
        [(0, posezero), (1, posezero), (2, posezero)]).2).map Prod.fst := by
  rw [assembleBlocks_keys]
  right
  exact ⟨⟨0, 5, posezero⟩, by simp, Or.inr rfl⟩

/-- C7 amended: assembly never fails; after Optimize the pose map holds
exactly the original keys, every id referenced by a constraint
(default-inserted when absent), and the anchor id 0. -/
theorem c7_amended (sol : ℤ → Fin 3 → ℝ) (dflt : Pose) (cs : List Constraint)
    (poses : List (ℤ × Pose)) (ua : Bool) (k : ℤ) :
    k ∈ (Optimize sol dflt cs poses ua).map Prod.fst ↔
      (k ∈ poses.map Prod.fst ∨ (∃ c ∈ cs, k = c.source ∨ k = c.target) ∨ k = 0) := by
  show k ∈ (ceresSolve sol (assembleBlocks dflt ua cs poses).1
      ((mapIndex (assembleBlocks dflt ua cs poses).2 0 dflt).2)).map Prod.fst ↔ _
  rw [ceresSolve_keys, mapIndex_keys, assembleBlocks_keys, or_assoc]

/-- C8: the three scalars of the pose with id 0 - and only those - are
marked constant, and the optimization entry point returns the anchor pose
unchanged whenever it was present, while no other pose's scalar is marked
constant. -/
theorem c8_anchor_constant (sol : ℤ → Fin 3 → ℝ) (dflt : Pose)
    (cs : List Constraint) (poses : List (ℤ × Pose)) (ua : Bool) (p0 : Pose)
    (h0 : poses.lookup 0 = some p0) :
    (∀ k : ℤ, (∀ c : Fin 3, (k, c) ∈ constantParameterBlocks) ↔ k = 0)
    ∧ (∀ k : ℤ, k ≠ 0 → ∀ c : Fin 3, (k, c) ∉ constantParameterBlocks)
    ∧ (Optimize sol dflt cs poses ua).lookup 0 = some p0 := by
  refine ⟨?_, ?_, ?_⟩
  · intro k
    constructor
    · intro hall
      have h00 := hall 0
      simpa [constantParameterBlocks, Prod.ext_iff] using h00
    · intro hk c
      subst hk
      fin_cases c <;> simp [constantParameterBlocks]
  · intro k hk c
    simp [constantParameterBlocks, Prod.ext_iff, hk]
  · show (ceresSolve sol (assembleBlocks dflt ua cs poses).1
        ((mapIndex (assembleBlocks dflt ua cs poses).2 0 dflt).2)).lookup 0 = some p0
    rw [ceresSolve_lookup]
    rw [mapIndex_lookup_preserved _ 0 0 dflt p0
      (assembleBlocks_lookup_preserved dflt ua cs poses 0 p0 h0)]
    simp [solvedPose_anchor]

/-- Witness for C8 at a concrete one-pose input. -/
theorem c8_anchor_constant_witness :
    List.lookup (0 : ℤ) [((0 : ℤ), posezero)] = some posezero
    ∧ (Optimize (fun _ _ => 0) posezero [] [((0 : ℤ), posezero)] false).lookup 0
        = some posezero :=
  ⟨rfl, (c8_anchor_constant (fun _ _ => 0) posezero [] [((0 : ℤ), posezero)]
    false posezero rfl).2.2⟩
